import Mathlib

/-!
# Verification of `kernel_upgrade.py`

A shallow embedding of the kernel-upgrade script: Python strings are modelled
as Lean `String` (sequences of code points, accessed through `List Char`),
Python's substring test (the `in` operator), `str.split` and `str.strip` are
re-implemented as executable Lean functions, and the script's pipeline
(version parsing, directory-listing filter, role classification, install loop
with return-code bookkeeping, artifact fetching) is translated function by
function.  Failures that Python signals by raising are modelled with
`Except`/`Option` values.
-/

/-! ## Python string primitives -/

/-- Does the character list `hay` start with `needle`?  (Helper for the
substring test.) -/
def chStarts : List Char → List Char → Bool
  | [], _ => true
  | _ :: _, [] => false
  | a :: as, b :: bs => a == b && chStarts as bs

/-- Does `hay` contain `needle` as a contiguous run?  (Helper for the
substring test.) -/
def hasSub (needle : List Char) : List Char → Bool
  | [] => needle.isEmpty
  | c :: t => chStarts needle (c :: t) || hasSub needle t

/-- Python's `needle in hay` substring test on strings. -/
def substr (needle hay : String) : Bool :=
  hasSub needle.toList hay.toList

/-- Python's `s.split(sep)` for a one-character separator `sep` (no maxsplit):
`"".split(sep) == [""]`, and consecutive separators produce empty tokens. -/
def pySplitCh (sep : Char) : List Char → List (List Char)
  | [] => [[]]
  | c :: t =>
    if c == sep then [] :: pySplitCh sep t
    else
      match pySplitCh sep t with
      | [] => [[c]]
      | h :: r => (c :: h) :: r

/-- The ASCII whitespace characters removed by Python's `str.strip()`. -/
def isPySpace (c : Char) : Bool :=
  c == ' ' || c == '\t' || c == '\n' || c == '\r' || c == '\x0b' || c == '\x0c'

/-- Python's `s.strip()`: drop whitespace from both ends. -/
def pyStrip (l : List Char) : List Char :=
  (((l.dropWhile isPySpace).reverse.dropWhile isPySpace)).reverse

/-! ## `Kernel._fetch_latest` / `Kernel._update` (version resolution)

`_fetch_latest` reads the text of the `latest_link` marker element, strips it
and splits on `'.'`; `_update` unpacks the resulting tuple into exactly three
components (`major, minor, revision`) and joins them back with `'.'` into
`ver_str`.  If the marker element is absent, Python raises (attribute access
on `None`); if the split does not have exactly three tokens, the tuple
unpacking raises.  Both aborts are modelled by `VersionParseError`. -/

/-- The failure modes of version resolution (the spec's `VersionParseError`):
the marker element is absent, or the dot-split does not yield exactly three
tokens. -/
inductive VersionParseError
  | markerMissing
  | badTokenCount (n : Nat)
  deriving DecidableEq

instance {ε α : Type} [DecidableEq ε] [DecidableEq α] : DecidableEq (Except ε α)
  | .error e, .error f =>
    if h : e = f then .isTrue (by rw [h])
    else .isFalse (fun hh => by injection hh; contradiction)
  | .error _, .ok _ => .isFalse (fun hh => Except.noConfusion hh)
  | .ok _, .error _ => .isFalse (fun hh => Except.noConfusion hh)
  | .ok a, .ok b =>
    if h : a = b then .isTrue (by rw [h])
    else .isFalse (fun hh => by injection hh; contradiction)

/-- Number of tokens produced by stripping the marker text and splitting on
`'.'` (the shape `_update` unpacks). -/
def tokCount (s : String) : Nat :=
  (pySplitCh '.' (pyStrip s.toList)).length

/-- `Kernel._fetch_latest` followed by `Kernel._update`'s unpacking: the
marker text (if the marker element was found) is stripped, split on `'.'`,
and unpacked into `(major, minor, revision)`. -/
def parseVersion (marker : Option String) :
    Except VersionParseError (String × String × String) :=
  match marker with
  | none => .error .markerMissing
  | some s =>
    match (pySplitCh '.' (pyStrip s.toList)).map String.mk with
    | [a, b, c] => .ok (a, b, c)
    | toks => .error (.badTokenCount toks.length)

/-- `Kernel._update`'s `ver_str`: `'.'.join([major, minor, revision])`. -/
def verStr (v : String × String × String) : String :=
  v.1 ++ "." ++ v.2.1 ++ "." ++ v.2.2

/-! ## `Upgrade.fetch_deb_lst` (inclusion filter)

The loop `for ittr, link in enumerate(links)` appends `link.text` when

`((arch in link.text and "BUILD.LOG" not in link.text) or
  (arch in links[ittr-1].text and "all" in link.text)) and
 ("lowlatency" not in link.text)`.

Note `links[ittr-1]` with `ittr = 0` is Python's `links[-1]`, the LAST link. -/

/-- Python's `links[i-1]`: for `i = 0` the negative index `-1` selects the
last element of the list. -/
def pyPrev (links : List String) (i : Nat) : String :=
  if i = 0 then links.getLastD "" else links.getD (i - 1) ""

/-- The loop condition of `fetch_deb_lst`, verbatim from the source. -/
def includeAt (arch : String) (links : List String) (i : Nat) (t : String) : Bool :=
  ((substr arch t && !(substr "BUILD.LOG" t)) ||
   (substr arch (pyPrev links i) && substr "all" t)) &&
  !(substr "lowlatency" t)

/-- The `enumerate` loop of `fetch_deb_lst`: walk the link texts with their
indices, keeping those that satisfy `includeAt`. -/
def filterAux (arch : String) (links : List String) : Nat → List String → List String
  | _, [] => []
  | i, t :: rest =>
    if includeAt arch links i t then t :: filterAux arch links (i + 1) rest
    else filterAux arch links (i + 1) rest

/-- `fetch_deb_lst`'s `out` list: the link texts passing the inclusion
filter, in listing order. -/
def filterLinks (arch : String) (links : List String) : List String :=
  filterAux arch links 0 links

/-! ## `Upgrade._deb_sort` (role classification)

`out = [None, None, None, None]`, then for each surviving file `f` an
`if`/`elif` chain assigns `f` to one slot (headers+all, headers+generic,
modules+generic, image+generic); a file matching no test is ignored. -/

/-- An installation plan: the four optional slots of `_deb_sort`'s `out`,
in source order (headers common, headers arch, modules, image). -/
abbrev Plan4 := Option String × Option String × Option String × Option String

/-- Generic accessor for a homogeneous 4-tuple. -/
def nth4 {α : Type} (t : α × α × α × α) (k : Fin 4) : α :=
  match k with
  | ⟨0, _⟩ => t.1
  | ⟨1, _⟩ => t.2.1
  | ⟨2, _⟩ => t.2.2.1
  | ⟨3, _⟩ => t.2.2.2

/-- Generic update of a homogeneous 4-tuple at a natural-number index
(indices `≥ 4` leave the tuple unchanged; they never arise). -/
def set4 {α : Type} (t : α × α × α × α) : Nat → α → α × α × α × α
  | 0, v => (v, t.2.1, t.2.2.1, t.2.2.2)
  | 1, v => (t.1, v, t.2.2.1, t.2.2.2)
  | 2, v => (t.1, t.2.1, v, t.2.2.2)
  | 3, v => (t.1, t.2.1, t.2.2.1, v)
  | _ + 4, _ => t

/-- One iteration of `_deb_sort`'s loop body: the `if`/`elif` chain,
verbatim from the source. -/
def debStep (out : Plan4) (f : String) : Plan4 :=
  if substr "headers" f && substr "all" f then
    (some f, out.2.1, out.2.2.1, out.2.2.2)
  else if substr "headers" f && substr "generic" f then
    (out.1, some f, out.2.2.1, out.2.2.2)
  else if substr "modules" f && substr "generic" f then
    (out.1, out.2.1, some f, out.2.2.2)
  else if substr "image" f && substr "generic" f then
    (out.1, out.2.1, out.2.2.1, some f)
  else out

/-- `_deb_sort`'s loop over `files`, starting from `[None, None, None, None]`. -/
def debSort (files : List String) : Plan4 :=
  files.foldl debStep (none, none, none, none)

/-- The role a filename classifies to, reading `_deb_sort`'s `if`/`elif`
chain as a priority list (first match wins); `none` when no test matches. -/
def classOf (f : String) : Option (Fin 4) :=
  if substr "headers" f && substr "all" f then some 0
  else if substr "headers" f && substr "generic" f then some 1
  else if substr "modules" f && substr "generic" f then some 2
  else if substr "image" f && substr "generic" f then some 3
  else none

/-- Fill (overwrite) the slot of a classified role; leave the plan unchanged
for an unclassified file. -/
def applyClass (p : Plan4) : Option (Fin 4) → String → Plan4
  | none, _ => p
  | some k, f => set4 p k.val (some f)

/-- A plan is complete when all four slots are resolved (spec section 3). -/
def isComplete (p : Plan4) : Bool :=
  p.1.isSome && p.2.1.isSome && p.2.2.1.isSome && p.2.2.2.isSome

/-! ## `Upgrade._shorten_name`

`_shorten_name` is called inside f-strings handed to the logger; its output
only reaches the log, but it RAISES on inputs of the wrong shape, and that
abort is load-bearing: `_deb_sort`'s debug loop calls it on every slot,
including unresolved (`None`) ones.  We model only whether the call
succeeds: `None.split` raises, as does any indexing past the end of
`filename.split('-')` or of `base[-1].split('_')`. -/

/-- Does `_shorten_name(f)` return normally?  Mirrors the subscripts
`base[2]`, `base[3]` (only when `"unsigned" in base[2]`), and
`base[-1].split('_')[1]`; `base[1]` and the final `split('.')[0]` cannot
fail once those succeed. -/
def shortenNameOk (f : String) : Bool :=
  let base := pySplitCh '-' f.toList
  match base.get? 2 with
  | none => false
  | some b2 =>
    (if hasSub "unsigned".toList b2 then (base.get? 3).isSome else true) &&
    ((pySplitCh '_' (base.getLastD [])).get? 1).isSome

/-- `_shorten_name` applied to one slot of `_deb_sort`'s `out`: a `None`
slot raises (`None.split('-')` has no attribute `split`). -/
def slotCheck (o : Option String) : Bool :=
  match o with
  | none => false
  | some f => shortenNameOk f

/-- Abort values of the plan/install pipeline.  `shortenAttrError` is the
unhandled exception raised inside `_shorten_name` (attribute error on `None`
or an index error); `incompletePlan` is the spec's `IncompletePlanError`
carrying the missing roles — the source never constructs it, it exists so
the spec's claimed behaviour can be stated and compared. -/
inductive Err
  | shortenAttrError
  | incompletePlan (missing : List (Fin 4))
  deriving DecidableEq

/-- A fully resolved plan: the four filenames in install order. -/
abbrev Prog4 := String × String × String × String

/-- `_deb_sort` including its debug-logging loop, which calls
`_shorten_name` on each of the four slots in order and therefore raises as
soon as a slot is `None` (or holds a name `_shorten_name` cannot digest). -/
def debSortChecked (files : List String) : Except Err Prog4 :=
  match debSort files with
  | (some a, some b, some c, some d) =>
    if shortenNameOk a && shortenNameOk b && shortenNameOk c && shortenNameOk d then
      .ok (a, b, c, d)
    else .error .shortenAttrError
  | _ => .error .shortenAttrError

/-! ## `Upgrade.install_all_debs` / `install_deb` / `_rc_check`

`install_all_debs` loops over the plan tuple: `get_deb(deb)` (download) then
`install_deb(deb)` (dpkg, then `_rc_check`).  `_rc_check` flips
`return_codes[self.packages.index(deb_name)]` to `True` exactly when the
dpkg return code is `0`; `.index` finds the FIRST occurrence of the name in
the tuple.  A non-zero return code only logs a warning — the loop continues.
Network and subprocess effects are abstracted into an action trace; the dpkg
exit codes are parameters. -/

/-- Externally visible actions of the install loop: download an artifact,
invoke the privileged installer on it. -/
inductive Act
  | fetch (f : String)
  | inst (f : String)
  deriving DecidableEq

/-- The per-run outcome vector `self.return_codes` (initially all `False`). -/
abbrev RC4 := Bool × Bool × Bool × Bool

/-- Python's `self.packages.index(deb_name)`: index of the first slot equal
to the name.  (At its call sites the name always occurs, so the fallback
branch `3` is exact.) -/
def pyIndex (p : Prog4) (x : String) : Nat :=
  if x = p.1 then 0 else if x = p.2.1 then 1 else if x = p.2.2.1 then 2 else 3

/-- `_rc_check`: on return code `0`, set
`return_codes[packages.index(name)]`; otherwise leave the vector unchanged
(warning only). -/
def rcCheck (p : Prog4) (t : RC4) (rc : Int) (name : String) : RC4 :=
  if rc = 0 then set4 t (pyIndex p name) true else t

/-- One iteration of `install_all_debs`: `get_deb(deb)` then
`install_deb(deb)` (which ends in `_rc_check`). -/
def installStep (p : Prog4) (acc : List Act × RC4) (deb : String) (rc : Int) :
    List Act × RC4 :=
  (acc.1 ++ [Act.fetch deb, Act.inst deb], rcCheck p acc.2 rc deb)

/-- `install_all_debs` over a resolved plan, with the four dpkg exit codes
as parameters, returning the action trace and the final `return_codes`. -/
def installAllDebs (p : Prog4) (r0 r1 r2 r3 : Int) : List Act × RC4 :=
  installStep p
    (installStep p
      (installStep p
        (installStep p ([], (false, false, false, false)) p.1 r0)
        p.2.1 r1)
      p.2.2.1 r2)
    p.2.2.2 r3

/-- `main`'s summary test: `all(u.return_codes)`. -/
def overallOk (t : RC4) : Bool :=
  t.1 && t.2.1 && t.2.2.1 && t.2.2.2

/-- The plan/install pipeline of `Upgrade.__init__` from the link texts on:
`_deb_sort(filter(...))` (with its logging loop, which aborts the run on an
unresolved slot before any download), then `install_all_debs`.  Returns the
artifact-level action trace together with the outcome vector or the abort. -/
def upgradeRun (arch : String) (links : List String) (r0 r1 r2 r3 : Int) :
    List Act × Except Err RC4 :=
  match debSortChecked (filterLinks arch links) with
  | .error e => ([], .error e)
  | .ok p =>
    ((installAllDebs p r0 r1 r2 r3).1, .ok (installAllDebs p r0 r1 r2 r3).2)

/-! ## `Upgrade._get_pkg_data` / `_write_pkg_data` (artifact fetching)

`_get_pkg_data` deletes a pre-existing same-named file, then downloads the
content; `_write_pkg_data` opens the file for (binary, truncating) write
inside a `with` block, writes the whole byte string and closes the handle.
The filesystem is an association of names to byte strings; the network
response for the one requested name is a parameter (`Except`, since
`requests.get` can raise). -/

/-- Downloaded content: a byte string. -/
abbrev Bytes := List Nat

/-- The working directory: filenames with their contents. -/
abbrev FS := List (String × Bytes)

/-- Content of a named file, if present. -/
def fsGet : FS → String → Option Bytes
  | [], _ => none
  | (m, v) :: t, n => if m = n then some v else fsGet t n

/-- `os.path.exists` for the working directory (`_file_exists`). -/
def fsHas (fs : FS) (n : String) : Bool :=
  (fsGet fs n).isSome

/-- `os.remove` (`_delete_file`). -/
def fsRemove (fs : FS) (n : String) : FS :=
  fs.filter (fun e => e.1 != n)

/-- `open(name, 'wb')` + full write: bind the name to exactly the new
content. -/
def fsSet (fs : FS) (n : String) (v : Bytes) : FS :=
  (n, v) :: fsRemove fs n

/-- A transport failure inside `requests.get` (the spec's `FetchError`). -/
inductive FetchErr
  | netFail
  deriving DecidableEq

/-- Observable steps of one `get_deb` call, in execution order. -/
inductive FetchEv
  | evExists (n : String) (found : Bool)
  | evDelete (n : String)
  | evGet (n : String)
  | evOpen (n : String)
  | evWrite (n : String)
  | evClose (n : String)
  deriving DecidableEq

/-- `_get_pkg_data`: check existence, delete a stale copy, then perform the
GET; the pair `(filename, content)` is returned on success. -/
def getPkgData (fs : FS) (n : String) (net : Except FetchErr Bytes) :
    FS × List FetchEv × Except FetchErr (String × Bytes) :=
  let pre : FS × List FetchEv :=
    if fsHas fs n then (fsRemove fs n, [FetchEv.evExists n true, FetchEv.evDelete n])
    else (fs, [FetchEv.evExists n false])
  match net with
  | .error e => (pre.1, pre.2 ++ [FetchEv.evGet n], .error e)
  | .ok bs => (pre.1, pre.2 ++ [FetchEv.evGet n], .ok (n, bs))

/-- `_write_pkg_data`: `with open(name, 'wb') as f: f.write(resp)` — open,
write the whole byte string, close. -/
def writePkgData (fs : FS) (resp : String × Bytes) : FS × List FetchEv :=
  (fsSet fs resp.1 resp.2,
   [FetchEv.evOpen resp.1, FetchEv.evWrite resp.1, FetchEv.evClose resp.1])

/-- `get_deb`: `_get_pkg_data` then `_write_pkg_data`; a download failure
propagates before any file handle is opened. -/
def getDeb (fs : FS) (n : String) (net : Except FetchErr Bytes) :
    FS × List FetchEv × Except FetchErr Unit :=
  match getPkgData fs n net with
  | (fs1, evs, .error e) => (fs1, evs, .error e)
  | (fs1, evs, .ok resp) =>
    let w := writePkgData fs1 resp
    (w.1, evs ++ w.2, .ok ())

/-- Number of `evOpen` events in a trace. -/
def openCount (evs : List FetchEv) : Nat :=
  evs.countP (fun ev => match ev with | .evOpen _ => true | _ => false)

/-- Number of `evClose` events in a trace. -/
def closeCount (evs : List FetchEv) : Nat :=
  evs.countP (fun ev => match ev with | .evClose _ => true | _ => false)

/-! ## Spec-side definitions (for comparison with the source)

The spec describes the inclusion filter in terms of "the immediately
preceding link in listing order".  `specInclude` follows the spec's words
(the first link has no preceding link, so its adjacency branch cannot
fire); `specIncludeCyc` is the amended reading in which the predecessor is
taken cyclically, as the source's `links[ittr-1]` actually does. -/

/-- Modelled from the spec: a link text is a candidate iff it has no
low-latency marker and either (a) it contains the architecture token and no
build-log marker, or (b) it contains the marker "all" and the immediately
preceding link (which exists only for `0 < i`) contains the architecture
token. -/
def specInclude (arch : String) (links : List String) (i : Nat) (t : String) : Bool :=
  !(substr "lowlatency" t) &&
  ((substr arch t && !(substr "BUILD.LOG" t)) ||
   (substr "all" t && decide (0 < i) && substr arch (links.getD (i - 1) "")))

/-- The spec's filter condition amended with the cyclic predecessor: index
0's predecessor is the last link. -/
def specIncludeCyc (arch : String) (links : List String) (i : Nat) (t : String) : Bool :=
  !(substr "lowlatency" t) &&
  ((substr arch t && !(substr "BUILD.LOG" t)) ||
   (substr "all" t && substr arch (pyPrev links i)))

/-- The filter recursion driven by the amended spec condition. -/
def specFilterAux (arch : String) (links : List String) : Nat → List String → List String
  | _, [] => []
  | i, t :: rest =>
    if specIncludeCyc arch links i t then t :: specFilterAux arch links (i + 1) rest
    else specFilterAux arch links (i + 1) rest

/-- The whole listing filtered by the amended spec condition. -/
def specFilterCyc (arch : String) (links : List String) : List String :=
  specFilterAux arch links 0 links

/-! ## Concrete artifact names (spec section 8's example listing) -/

/-- Architecture-independent headers package: marker "all", no architecture
token. -/
def debHeadersAll : String :=
  "linux-headers-6.2.1-060201_6.2.1-060201.202302250831_all.deb"

/-- Architecture-specific headers package. -/
def debHeadersArch : String :=
  "linux-headers-6.2.1-060201-generic_6.2.1-060201.202302250831_amd64.deb"

/-- Kernel modules package. -/
def debModules : String :=
  "linux-modules-6.2.1-060201-generic_6.2.1-060201.202302250831_amd64.deb"

/-- Kernel image package. -/
def debImage : String :=
  "linux-image-unsigned-6.2.1-060201-generic_6.2.1-060201.202302250831_amd64.deb"

/-- A build-log entry (excluded by the filter). -/
def debBuildLog : String := "BUILD.LOG.amd64"

/-- A low-latency flavour image (excluded by the filter). -/
def debLowLat : String :=
  "linux-image-6.2.1-060201-lowlatency_6.2.1-060201.202302250831_amd64.deb"

/-! ## Lemmas: 4-tuples and classification -/

theorem nth4_set4_self {α : Type} (t : α × α × α × α) (k : Fin 4) (v : α) :
    nth4 (set4 t k.val v) k = v := by
  fin_cases k <;> rfl

theorem nth4_set4_ne {α : Type} (t : α × α × α × α) (k m : Fin 4) (v : α)
    (h : k ≠ m) : nth4 (set4 t k.val v) m = nth4 t m := by
  fin_cases k <;> fin_cases m <;> simp_all <;> rfl

/-- The `if`/`elif` chain of `_deb_sort` is exactly: classify, then fill
(overwrite) the classified slot, ignoring unclassified files. -/
theorem debStep_eq (out : Plan4) (f : String) :
    debStep out f = applyClass out (classOf f) f := by
  unfold debStep classOf applyClass
  cases h1 : substr "headers" f <;> cases h2 : substr "all" f <;>
    cases h3 : substr "generic" f <;> cases h4 : substr "modules" f <;>
    cases h5 : substr "image" f <;> simp [set4]

/-- `debStep` never clears a resolved slot. -/
theorem debStep_mono (p : Plan4) (f : String) (k : Fin 4)
    (h : (nth4 p k).isSome = true) : (nth4 (debStep p f) k).isSome = true := by
  rw [debStep_eq]
  cases hc : classOf f with
  | none => simpa [applyClass] using h
  | some m =>
    by_cases hm : m = k
    · subst hm; simp [applyClass, nth4_set4_self]
    · simpa [applyClass, nth4_set4_ne p m k _ hm] using h

theorem foldl_fill (k : Fin 4) :
    ∀ (files : List String) (init : Plan4),
      ((nth4 init k).isSome = true ∨ ∃ f ∈ files, classOf f = some k) →
      (nth4 (files.foldl debStep init) k).isSome = true := by
  intro files
  induction files with
  | nil =>
    intro init h
    rcases h with h | ⟨f, hf, _⟩
    · simpa using h
    · exact absurd hf (List.not_mem_nil f)
  | cons g rest ih =>
    intro init h
    rw [List.foldl_cons]
    apply ih
    rcases h with h | ⟨f, hf, hcf⟩
    · exact Or.inl (debStep_mono init g k h)
    · rcases List.mem_cons.mp hf with rfl | hf2
      · refine Or.inl ?_
        rw [debStep_eq, hcf]
        simp [applyClass, nth4_set4_self]
      · exact Or.inr ⟨f, hf2, hcf⟩

/-- A slot gets resolved as soon as some input file classifies to it. -/
theorem debSort_fill (files : List String) (f : String) (k : Fin 4)
    (hf : f ∈ files) (hcf : classOf f = some k) :
    (nth4 (debSort files) k).isSome = true :=
  foldl_fill k files (none, none, none, none) (Or.inr ⟨f, hf, hcf⟩)

theorem foldl_class (k : Fin 4) (f : String) :
    ∀ (files : List String) (init : Plan4),
      (∀ m g, nth4 init m = some g → classOf g = some m) →
      nth4 (files.foldl debStep init) k = some f → classOf f = some k := by
  intro files
  induction files with
  | nil =>
    intro init hinv h
    exact hinv k f h
  | cons g rest ih =>
    intro init hinv h
    rw [List.foldl_cons] at h
    refine ih (debStep init g) ?_ h
    intro m x hm
    rw [debStep_eq] at hm
    cases hc : classOf g with
    | none => exact hinv m x (by rwa [hc, applyClass] at hm)
    | some j =>
      rw [hc] at hm
      by_cases hj : j = m
      · subst hj
        rw [applyClass, nth4_set4_self] at hm
        cases hm
        exact hc
      · rw [applyClass, nth4_set4_ne _ j m _ hj] at hm
        exact hinv m x hm

/-- Whatever `_deb_sort` puts into a slot classifies to that slot. -/
theorem debSort_class (files : List String) (k : Fin 4) (f : String)
    (h : nth4 (debSort files) k = some f) : classOf f = some k := by
  refine foldl_class k f files (none, none, none, none) ?_ h
  intro m g hm
  fin_cases m <;> simp [nth4] at hm

/-! ## Lemmas: the inclusion filter -/

/-- An element of the walked sublist whose filter condition (at its global
index) holds ends up in `filterAux`'s output. -/
theorem mem_filterAux (arch : String) (links : List String) :
    ∀ (sub : List String) (i j : Nat) (hj : j < sub.length),
      includeAt arch links (i + j) (sub.get ⟨j, hj⟩) = true →
      sub.get ⟨j, hj⟩ ∈ filterAux arch links i sub := by
  intro sub
  induction sub with
  | nil => intro i j hj; simp at hj
  | cons t rest ih =>
    intro i j hj hinc
    cases j with
    | zero =>
      have h0 : includeAt arch links i t = true := by simpa using hinc
      simp only [filterAux, h0, if_true, List.get]
      exact List.mem_cons_self _ _
    | succ j' =>
      have hj2 : j' < rest.length := by
        simpa [Nat.succ_lt_succ_iff] using hj
      have hish : i + 1 + j' = i + (j' + 1) := by omega
      have hmem : rest.get ⟨j', hj2⟩ ∈ filterAux arch links (i + 1) rest := by
        apply ih (i + 1) j' hj2
        rw [hish]
        exact hinc
      simp only [filterAux, List.get]
      split
      · exact List.mem_cons_of_mem _ hmem
      · exact hmem

/-- In a list where `a` occurs exactly once, two positions holding `a`
coincide. -/
theorem get_eq_of_count_one {α : Type} [DecidableEq α] :
    ∀ (l : List α) (a : α), l.count a = 1 →
      ∀ (i j : Nat) (hi : i < l.length) (hj : j < l.length),
        l.get ⟨i, hi⟩ = a → l.get ⟨j, hj⟩ = a → i = j := by
  intro l
  induction l with
  | nil => intro a h i j hi; simp at hi
  | cons x t ih =>
    intro a hc i j hi hj ha hb
    cases i with
    | zero =>
      cases j with
      | zero => rfl
      | succ j2 =>
        exfalso
        have hx : x = a := ha
        have hj2 : j2 < t.length := by simpa [Nat.succ_lt_succ_iff] using hj
        have hmem : a ∈ t := by
          rw [← hb]; exact t.get_mem j2 hj2
        have ht0 : t.count a = 0 := by
          rw [List.count_cons] at hc
          simp [hx] at hc
          omega
        rw [List.count_eq_zero] at ht0
        exact ht0 hmem
    | succ i2 =>
      cases j with
      | zero =>
        exfalso
        have hx : x = a := hb
        have hi2 : i2 < t.length := by simpa [Nat.succ_lt_succ_iff] using hi
        have hmem : a ∈ t := by
          rw [← ha]; exact t.get_mem i2 hi2
        have ht0 : t.count a = 0 := by
          rw [List.count_cons] at hc
          simp [hx] at hc
          omega
        rw [List.count_eq_zero] at ht0
        exact ht0 hmem
      | succ j2 =>
        have hi2 : i2 < t.length := by simpa [Nat.succ_lt_succ_iff] using hi
        have hj2 : j2 < t.length := by simpa [Nat.succ_lt_succ_iff] using hj
        have hxchar : x ≠ a := by
          intro hx
          have hmem : a ∈ t := by
            rw [← (show t.get ⟨i2, hi2⟩ = a from ha)]; exact t.get_mem i2 hi2
          have ht0 : t.count a = 0 := by
            rw [List.count_cons] at hc
            simp [hx] at hc
            omega
          rw [List.count_eq_zero] at ht0
          exact ht0 hmem
        have htc : t.count a = 1 := by
          rw [List.count_cons] at hc
          simpa [hxchar] using hc
        have := ih a htc i2 j2 hi2 hj2 ha hb
        omega

/-- `getLastD` of a nonempty list is the entry at the last index. -/
theorem getLastD_eq_get (l : List String) (h : l ≠ [])
    (hl : l.length - 1 < l.length) : l.getLastD "" = l.get ⟨l.length - 1, hl⟩ := by
  cases l with
  | nil => exact absurd rfl h
  | cons a t =>
    rw [List.getLastD_eq_getLast?, List.getLast?_eq_getLast _ h, Option.getD_some,
      List.getLast_eq_getElem, List.get_eq_getElem]

/-! ## Lemmas: split and strip -/

/-- `(String.mk l).toList` unfolds to `l`. -/
theorem toList_mk (l : List Char) : (String.mk l).toList = l := rfl

/-- String append acts as list append on the underlying character lists. -/
theorem mk_append (x y : List Char) :
    String.mk x ++ String.mk y = String.mk (x ++ y) := rfl


theorem pySplitCh_ne_nil (sep : Char) : ∀ l : List Char, pySplitCh sep l ≠ [] := by
  intro l
  induction l with
  | nil => simp [pySplitCh]
  | cons c t ih =>
    rw [pySplitCh]
    split
    · simp
    · split
      · simp
      · simp

/-- Splitting a separator-free list yields the list as its only token. -/
theorem pySplitCh_no_sep (sep : Char) :
    ∀ l : List Char, sep ∉ l → pySplitCh sep l = [l] := by
  intro l
  induction l with
  | nil => intro _; rfl
  | cons c t ih =>
    intro h
    have hc : ¬(c == sep) = true := by
      simp only [beq_iff_eq]
      intro hcs
      exact h (hcs ▸ List.mem_cons_self c t)
    have ht : sep ∉ t := fun hm => h (List.mem_cons_of_mem c hm)
    rw [pySplitCh, if_neg hc, ih ht]

/-- Splitting past a separator-free head token. -/
theorem pySplitCh_append (sep : Char) :
    ∀ (a r : List Char), sep ∉ a →
      pySplitCh sep (a ++ sep :: r) = a :: pySplitCh sep r := by
  intro a
  induction a with
  | nil =>
    intro r _
    simp only [List.nil_append, pySplitCh, beq_self_eq_true, if_true]
  | cons c t ih =>
    intro r h
    have hc : ¬(c == sep) = true := by
      simp only [beq_iff_eq]
      intro hcs
      exact h (hcs ▸ List.mem_cons_self c t)
    have ht : sep ∉ t := fun hm => h (List.mem_cons_of_mem c hm)
    rw [List.cons_append, pySplitCh, if_neg hc, ih r ht]

/-- `dropWhile` is the identity when the head (if any) fails the predicate. -/
theorem dropWhile_eq_self_of_all {α : Type} (p : α → Bool) (l : List α)
    (h : ∀ x ∈ l, p x = false) : l.dropWhile p = l := by
  cases l with
  | nil => rfl
  | cons a t =>
    rw [List.dropWhile_cons, h a (List.mem_cons_self a t)]
    simp

/-- `str.strip()` leaves a whitespace-free string unchanged. -/
theorem pyStrip_eq_self (l : List Char) (h : ∀ x ∈ l, isPySpace x = false) :
    pyStrip l = l := by
  unfold pyStrip
  rw [dropWhile_eq_self_of_all _ l h]
  rw [dropWhile_eq_self_of_all _ l.reverse (fun x hx => h x (List.mem_reverse.mp hx))]
  exact List.reverse_reverse l

/-- Digits are not stripped. -/
theorem isPySpace_false_of_isDigit (c : Char) (h : c.isDigit = true) :
    isPySpace c = false := by
  unfold isPySpace
  have h1 : ¬(c = ' ') := fun hh => by subst hh; exact absurd h (by decide)
  have h2 : ¬(c = '\t') := fun hh => by subst hh; exact absurd h (by decide)
  have h3 : ¬(c = '\n') := fun hh => by subst hh; exact absurd h (by decide)
  have h4 : ¬(c = '\r') := fun hh => by subst hh; exact absurd h (by decide)
  have h5 : ¬(c = '\x0b') := fun hh => by subst hh; exact absurd h (by decide)
  have h6 : ¬(c = '\x0c') := fun hh => by subst hh; exact absurd h (by decide)
  simp [h1, h2, h3, h4, h5, h6]

/-- Digits are not the dot separator. -/
theorem ne_dot_of_isDigit (c : Char) (h : c.isDigit = true) : c ≠ '.' :=
  fun hh => by subst hh; exact absurd h (by decide)

/-! ## Claim C6: malformed version strings -/

/-- C6: version resolution fails with a `VersionParseError` whenever the
dot-split of the (stripped) marker text has fewer or more than three
tokens, and also when the marker element is absent. -/
theorem version_parse_fails_on_bad_shape :
    (∀ s : String, tokCount s ≠ 3 →
      parseVersion (some s) = .error (.badTokenCount (tokCount s))) ∧
    parseVersion none = .error .markerMissing := by
  constructor
  · intro s h
    have hred : parseVersion (some s) =
        (match (pySplitCh '.' (pyStrip s.toList)).map String.mk with
         | [a, b, c] => Except.ok (a, b, c)
         | toks => Except.error (.badTokenCount toks.length)) := rfl
    unfold tokCount at h ⊢
    rw [hred]
    rcases hsp : pySplitCh '.' (pyStrip s.toList) with _ | ⟨x, _ | ⟨y, _ | ⟨z, _ | ⟨w, r⟩⟩⟩⟩ <;>
      simp_all
  · rfl

/-- C6 witness: a two-token marker text is rejected with the token count. -/
theorem version_parse_fails_on_bad_shape_witness :
    tokCount "6.2" ≠ 3 ∧
    parseVersion (some "6.2") = .error (.badTokenCount (tokCount "6.2")) :=
  ⟨by decide, version_parse_fails_on_bad_shape.1 "6.2" (by decide)⟩

/-! ## Claim C7: round-trip of valid version strings -/

/-- C7: a valid version string — three dot-separated integer-like (digit)
tokens — parses into exactly those components, and re-stringifying through
`ver_str`'s dot-join reproduces the identical string. -/
theorem version_roundtrip (a b c : List Char)
    (ha : a.all Char.isDigit = true) (hb : b.all Char.isDigit = true)
    (hc : c.all Char.isDigit = true) :
    parseVersion (some (String.mk (a ++ '.' :: (b ++ '.' :: c)))) =
      .ok (String.mk a, String.mk b, String.mk c) ∧
    verStr (String.mk a, String.mk b, String.mk c) =
      String.mk (a ++ '.' :: (b ++ '.' :: c)) := by
  have hda : ∀ x ∈ a, x.isDigit = true := by simpa [List.all_eq_true] using ha
  have hdb : ∀ x ∈ b, x.isDigit = true := by simpa [List.all_eq_true] using hb
  have hdc : ∀ x ∈ c, x.isDigit = true := by simpa [List.all_eq_true] using hc
  have hmemsp : ∀ x ∈ a ++ '.' :: (b ++ '.' :: c), isPySpace x = false := by
    intro x hx
    rcases List.mem_append.mp hx with hxa | hx2
    · exact isPySpace_false_of_isDigit x (hda x hxa)
    · rcases List.mem_cons.mp hx2 with rfl | hx3
      · decide
      · rcases List.mem_append.mp hx3 with hxb | hx4
        · exact isPySpace_false_of_isDigit x (hdb x hxb)
        · rcases List.mem_cons.mp hx4 with rfl | hxc
          · decide
          · exact isPySpace_false_of_isDigit x (hdc x hxc)
  have hstrip : pyStrip (a ++ '.' :: (b ++ '.' :: c)) = a ++ '.' :: (b ++ '.' :: c) :=
    pyStrip_eq_self _ hmemsp
  have hdra : '.' ∉ a := fun hm => ne_dot_of_isDigit '.' (hda '.' hm) rfl
  have hdrb : '.' ∉ b := fun hm => ne_dot_of_isDigit '.' (hdb '.' hm) rfl
  have hdrc : '.' ∉ c := fun hm => ne_dot_of_isDigit '.' (hdc '.' hm) rfl
  have hsplit : pySplitCh '.' (a ++ '.' :: (b ++ '.' :: c)) = [a, b, c] := by
    rw [pySplitCh_append '.' a (b ++ '.' :: c) hdra,
      pySplitCh_append '.' b c hdrb, pySplitCh_no_sep '.' c hdrc]
  constructor
  · have hred : parseVersion (some (String.mk (a ++ '.' :: (b ++ '.' :: c)))) =
        (match (pySplitCh '.'
            (pyStrip (String.mk (a ++ '.' :: (b ++ '.' :: c))).toList)).map String.mk with
         | [x, y, z] => Except.ok (x, y, z)
         | toks => Except.error (.badTokenCount toks.length)) := rfl
    rw [hred, toList_mk, hstrip, hsplit]
    rfl
  · unfold verStr
    rw [show ("." : String) = String.mk ['.'] from rfl]
    simp only [mk_append]
    apply congrArg
    simp [List.append_assoc]

/-- C7 witness: the round trip at the concrete version string "6.2.1". -/
theorem version_roundtrip_witness :
    parseVersion (some "6.2.1") = .ok ("6", "2", "1") ∧
    verStr ("6", "2", "1") = "6.2.1" :=
  version_roundtrip ['6'] ['2'] ['1'] (by decide) (by decide) (by decide)

/-! ## Claim C3: the inclusion filter vs the spec's wording -/

/-- C3 counterexample: at index 0 the source evaluates the "preceding link"
against the LAST listing entry (Python `links[-1]`), so a first link
containing "all" (and no architecture token of its own) is included even
though no link precedes it in listing order; the spec's condition
(`specInclude`) rejects it. -/
theorem include_filter_spec_cex :
    includeAt "amd64" [debHeadersAll, debImage] 0 debHeadersAll = true ∧
    specInclude "amd64" [debHeadersAll, debImage] 0 debHeadersAll = false ∧
    debHeadersAll ∈ filterLinks "amd64" [debHeadersAll, debImage] := by
  refine ⟨by decide, by decide, by decide⟩

/-- The source's filter condition is the spec's condition with the
predecessor taken cyclically. -/
theorem includeAt_eq_specIncludeCyc (arch : String) (links : List String)
    (i : Nat) (t : String) :
    includeAt arch links i t = specIncludeCyc arch links i t := by
  unfold includeAt specIncludeCyc
  cases substr arch t <;> cases substr "BUILD.LOG" t <;>
    cases substr arch (pyPrev links i) <;> cases substr "all" t <;>
    cases substr "lowlatency" t <;> rfl

/-- C3 (amended): a link text passes the inclusion filter iff it has no
low-latency marker and either (a) it contains the architecture token and no
build-log marker, or (b) it contains "all" and the link at the previous
index — taken cyclically, so the first link's predecessor is the last
link — contains the architecture token. -/
theorem filter_matches_spec_cyclic (arch : String) (links : List String) :
    filterLinks arch links = specFilterCyc arch links := by
  have haux : ∀ (sub : List String) (i : Nat),
      filterAux arch links i sub = specFilterAux arch links i sub := by
    intro sub
    induction sub with
    | nil => intro i; rfl
    | cons t rest ih =>
      intro i
      simp only [filterAux, specFilterAux, includeAt_eq_specIncludeCyc, ih]
  exact haux links 0

/-! ## Claim C9: the index-0 wraparound -/

/-- C9: for the first link of the listing, the "immediately preceding link"
test is evaluated against the LAST link (`links[-1]`): a first link
containing "all" and no low-latency marker is included whenever the final
listing entry contains the architecture token. -/
theorem first_link_wraps_to_last (arch t : String) (rest : List String)
    (hall : substr "all" t = true) (hlow : substr "lowlatency" t = false)
    (harch : substr arch ((t :: rest).getLastD "") = true) :
    t ∈ filterLinks arch (t :: rest) := by
  have hinc : includeAt arch (t :: rest) 0 t = true := by
    unfold includeAt pyPrev
    simp [hall, hlow]
    right
    rwa [List.getLastD_eq_getLast?] at harch
  unfold filterLinks
  simp only [filterAux, hinc, if_true]
  exact List.mem_cons_self _ _

/-- C9 witness: the concrete wraparound instance — "all"-headers first,
architecture entry last. -/
theorem first_link_wraps_to_last_witness :
    substr "all" debHeadersAll = true ∧
    substr "lowlatency" debHeadersAll = false ∧
    substr "amd64" ([debHeadersAll, debHeadersArch].getLastD "") = true ∧
    debHeadersAll ∈ filterLinks "amd64" [debHeadersAll, debHeadersArch] :=
  ⟨by decide, by decide, by decide,
   first_link_wraps_to_last "amd64" debHeadersAll [debHeadersArch]
     (by decide) (by decide) (by decide)⟩

/-! ## Claim C5: classification priority, silent drop, last-write-wins -/

/-- C5: appending one more candidate to the input of `_deb_sort` classifies
it by the fixed priority chain `classOf` (headers+all, headers+generic,
modules+generic, image+generic; first match wins), overwrites exactly the
slot of its role (so the later of two same-role candidates wins), and
leaves the plan unchanged — with no error — when no role matches. -/
theorem classification_last_write_wins (files : List String) (f : String) :
    debSort (files ++ [f]) = applyClass (debSort files) (classOf f) f := by
  unfold debSort
  rw [List.foldl_append]
  simp only [List.foldl_cons, List.foldl_nil]
  exact debStep_eq _ f

/-! ## Claim C1: incomplete plans -/

/-- C1 counterexample: on a listing with no architecture-independent headers
entry the run does abort, but with the attribute error raised inside
`_shorten_name` (on the `None` slot) — not with an `IncompletePlanError`
naming the missing role. -/
theorem incomplete_plan_error_cex :
    upgradeRun "amd64" [debHeadersArch, debModules, debImage] 0 0 0 0 =
      ([], .error .shortenAttrError) ∧
    (upgradeRun "amd64" [debHeadersArch, debModules, debImage] 0 0 0 0).2 ≠
      .error (.incompletePlan [0]) := by
  refine ⟨by decide, by decide⟩

/-- C1 (amended): if any of the four plan slots is unresolved after
classification, the run aborts — with the attribute error from
`_deb_sort`'s debug-logging loop rather than an `IncompletePlanError`
naming the missing roles — and the abort happens before any fetch or
install action is performed for any artifact (the action trace is empty). -/
theorem incomplete_plan_aborts_before_any_fetch (arch : String)
    (links : List String) (r0 r1 r2 r3 : Int)
    (h : (debSort (filterLinks arch links)).1 = none ∨
         (debSort (filterLinks arch links)).2.1 = none ∨
         (debSort (filterLinks arch links)).2.2.1 = none ∨
         (debSort (filterLinks arch links)).2.2.2 = none) :
    upgradeRun arch links r0 r1 r2 r3 = ([], .error .shortenAttrError) := by
  unfold upgradeRun debSortChecked
  rcases hds : debSort (filterLinks arch links) with ⟨o1, o2, o3, o4⟩
  rw [hds] at h
  cases o1 <;> cases o2 <;> cases o3 <;> cases o4 <;> simp_all

/-- C1 witness: on the concrete listing missing the common-headers role,
the amended behaviour is exhibited. -/
theorem incomplete_plan_aborts_before_any_fetch_witness :
    (debSort (filterLinks "amd64" [debHeadersArch, debModules, debImage])).1 = none ∧
    upgradeRun "amd64" [debHeadersArch, debModules, debImage] 1 1 1 1 =
      ([], .error .shortenAttrError) :=
  ⟨by decide,
   incomplete_plan_aborts_before_any_fetch "amd64"
     [debHeadersArch, debModules, debImage] 1 1 1 1 (Or.inl (by decide))⟩

/-! ## Claim C2: processing order, outcomes, continuation on failure -/

/-- A successfully checked plan is exactly what `_deb_sort` resolved. -/
theorem debSortChecked_ok (files : List String) (a b c d : String)
    (h : debSortChecked files = .ok (a, b, c, d)) :
    debSort files = (some a, some b, some c, some d) := by
  unfold debSortChecked at h
  rcases hds : debSort files with ⟨o1, o2, o3, o4⟩
  rw [hds] at h
  cases o1 <;> cases o2 <;> cases o3 <;> cases o4 <;> simp_all
  split_ifs at h
  simp_all

/-- C2: for every plan the resolver hands to the orchestrator, the four
slots are processed in canonical role order, each artifact is fetched
immediately before it is installed, later slots are fetched and installed
regardless of earlier exit codes (the trace is the same for all exit
codes), each slot's outcome is success iff its exit code is exactly zero,
and the overall verdict is the conjunction of the four outcomes. -/
theorem plan_install_order_outcomes (files : List String) (r0 r1 r2 r3 : Int)
    (a b c d : String)
    (h : debSortChecked files = .ok (a, b, c, d)) :
    installAllDebs (a, b, c, d) r0 r1 r2 r3 =
      ([Act.fetch a, Act.inst a, Act.fetch b, Act.inst b,
        Act.fetch c, Act.inst c, Act.fetch d, Act.inst d],
       (decide (r0 = 0), decide (r1 = 0), decide (r2 = 0), decide (r3 = 0))) ∧
    overallOk (installAllDebs (a, b, c, d) r0 r1 r2 r3).2 =
      (decide (r0 = 0) && decide (r1 = 0) && decide (r2 = 0) && decide (r3 = 0)) := by
  have hds := debSortChecked_ok files a b c d h
  have h0 : classOf a = some 0 := debSort_class files 0 a (by rw [hds]; rfl)
  have h1 : classOf b = some 1 := debSort_class files 1 b (by rw [hds]; rfl)
  have h2 : classOf c = some 2 := debSort_class files 2 c (by rw [hds]; rfl)
  have h3 : classOf d = some 3 := debSort_class files 3 d (by rw [hds]; rfl)
  have hba : ¬b = a := fun he => by rw [he] at h1; rw [h1] at h0; simp at h0
  have hca : ¬c = a := fun he => by rw [he] at h2; rw [h2] at h0; simp at h0
  have hcb : ¬c = b := fun he => by rw [he] at h2; rw [h2] at h1; simp at h1
  have hda : ¬d = a := fun he => by rw [he] at h3; rw [h3] at h0; simp at h0
  have hdb : ¬d = b := fun he => by rw [he] at h3; rw [h3] at h1; simp at h1
  have hdc : ¬d = c := fun he => by rw [he] at h3; rw [h3] at h2; simp at h2
  have key : installAllDebs (a, b, c, d) r0 r1 r2 r3 =
      ([Act.fetch a, Act.inst a, Act.fetch b, Act.inst b,
        Act.fetch c, Act.inst c, Act.fetch d, Act.inst d],
       (decide (r0 = 0), decide (r1 = 0), decide (r2 = 0), decide (r3 = 0))) := by
    unfold installAllDebs installStep rcCheck pyIndex
    by_cases e0 : r0 = 0 <;> by_cases e1 : r1 = 0 <;> by_cases e2 : r2 = 0 <;>
      by_cases e3 : r3 = 0 <;>
      simp [e0, e1, e2, e3, hba, hca, hcb, hda, hdb, hdc, set4]
  refine ⟨key, ?_⟩
  rw [key]
  unfold overallOk
  simp

/-- C2 witness: on the spec's example listing, with exit codes
`0, 0, 1, 0`, all four artifacts are still fetched and installed in
canonical order, the outcome vector is `(T, T, F, T)` and the overall
verdict is failure. -/
theorem plan_install_order_outcomes_witness :
    debSortChecked [debHeadersArch, debHeadersAll, debModules, debImage,
        debBuildLog, debLowLat] =
      .ok (debHeadersAll, debHeadersArch, debModules, debImage) ∧
    installAllDebs (debHeadersAll, debHeadersArch, debModules, debImage) 0 0 1 0 =
      ([Act.fetch debHeadersAll, Act.inst debHeadersAll,
        Act.fetch debHeadersArch, Act.inst debHeadersArch,
        Act.fetch debModules, Act.inst debModules,
        Act.fetch debImage, Act.inst debImage],
       (true, true, false, true)) ∧
    overallOk (installAllDebs
      (debHeadersAll, debHeadersArch, debModules, debImage) 0 0 1 0).2 = false := by
  have h := plan_install_order_outcomes
    [debHeadersArch, debHeadersAll, debModules, debImage, debBuildLog, debLowLat]
    0 0 1 0 debHeadersAll debHeadersArch debModules debImage (by decide)
  exact ⟨by decide, h.1.trans (by decide), h.2.trans (by decide)⟩

/-! ## Claim C4: completeness is independent of listing order -/

/-- Position-independent inclusion: a listed entry carrying the
architecture token, no build-log marker and no low-latency marker passes
the filter wherever it sits. -/
theorem mem_filterLinks_arch (arch t : String) (l : List String)
    (ht : t ∈ l) (harcht : substr arch t = true)
    (hb : substr "BUILD.LOG" t = false) (hl2 : substr "lowlatency" t = false) :
    t ∈ filterLinks arch l := by
  obtain ⟨j, hj⟩ := List.mem_iff_get.mp ht
  have hget : l.get ⟨j.val, j.isLt⟩ = t := by simpa using hj
  have hinc : includeAt arch l (0 + j.val) (l.get ⟨j.val, j.isLt⟩) = true := by
    rw [Nat.zero_add, hget]
    unfold includeAt
    simp [harcht, hb, hl2]
  have hx := mem_filterAux arch l l 0 j.val j.isLt hinc
  rw [hget] at hx
  exact hx

/-- C4: resolving a plan from any permutation of a valid listing — one
entry per role (the architecture-independent headers entry being the only
one without the architecture token) plus excluded entries that all carry
the architecture token — yields a complete plan with all four slots
filled, whatever the listing order: classification, not position,
determines the role, and the adjacency used by the "all" inclusion test is
always satisfied because every other entry carries the architecture
token. -/
theorem shuffled_listing_complete (arch e0 e1 e2 e3 : String)
    (extras l : List String)
    (hperm : l.Perm (e0 :: e1 :: e2 :: e3 :: extras))
    (h0h : substr "headers" e0 = true) (h0a : substr "all" e0 = true)
    (h0l : substr "lowlatency" e0 = false) (h0arch : substr arch e0 = false)
    (h1h : substr "headers" e1 = true) (h1g : substr "generic" e1 = true)
    (h1arch : substr arch e1 = true) (h1all : substr "all" e1 = false)
    (h1b : substr "BUILD.LOG" e1 = false) (h1l : substr "lowlatency" e1 = false)
    (h2m : substr "modules" e2 = true) (h2g : substr "generic" e2 = true)
    (h2arch : substr arch e2 = true) (h2h : substr "headers" e2 = false)
    (h2b : substr "BUILD.LOG" e2 = false) (h2l : substr "lowlatency" e2 = false)
    (h3i : substr "image" e3 = true) (h3g : substr "generic" e3 = true)
    (h3arch : substr arch e3 = true) (h3h : substr "headers" e3 = false)
    (h3m : substr "modules" e3 = false) (h3b : substr "BUILD.LOG" e3 = false)
    (h3l : substr "lowlatency" e3 = false)
    (hex : ∀ x ∈ extras, substr arch x = true) :
    isComplete (debSort (filterLinks arch l)) = true := by
  have hmem_arch : ∀ x ∈ l, x ≠ e0 → substr arch x = true := by
    intro x hx hne
    have hx2 : x ∈ e0 :: e1 :: e2 :: e3 :: extras := hperm.mem_iff.mp hx
    simp only [List.mem_cons] at hx2
    rcases hx2 with rfl | rfl | rfl | rfl | hxe
    · exact absurd rfl hne
    · exact h1arch
    · exact h2arch
    · exact h3arch
    · exact hex x hxe
  have hne01 : e0 ≠ e1 := fun he => by rw [he, h1arch] at h0arch; simp at h0arch
  have hne02 : e0 ≠ e2 := fun he => by rw [he, h2arch] at h0arch; simp at h0arch
  have hne03 : e0 ≠ e3 := fun he => by rw [he, h3arch] at h0arch; simp at h0arch
  have hnotex : e0 ∉ extras := fun hm => by
    have := hex e0 hm
    rw [h0arch] at this
    simp at this
  have hcount : l.count e0 = 1 := by
    rw [hperm.count_eq]
    simp [List.count_cons, List.count_eq_zero.mpr hnotex, hne01, hne02, hne03]
  have hlen : 4 ≤ l.length := by
    rw [hperm.length_eq]
    simp only [List.length_cons]
    omega
  obtain ⟨n, hn⟩ := List.mem_iff_get.mp (hperm.mem_iff.mpr (by simp) : e0 ∈ l)
  have hgetn : l.get ⟨n.val, n.isLt⟩ = e0 := by simpa using hn
  have hprevarch : substr arch (pyPrev l n.val) = true := by
    by_cases hz : n.val = 0
    · have hlne : l ≠ [] := List.ne_nil_of_length_pos (by omega)
      have hlt : l.length - 1 < l.length := by omega
      have hgl : pyPrev l n.val = l.get ⟨l.length - 1, hlt⟩ := by
        unfold pyPrev
        rw [if_pos hz]
        exact getLastD_eq_get l hlne hlt
      rw [hgl]
      apply hmem_arch _ (l.get_mem _ _)
      intro he
      have := get_eq_of_count_one l e0 hcount (l.length - 1) n.val hlt n.isLt he hgetn
      omega
    · have hlt : n.val - 1 < l.length := by
        have := n.isLt
        omega
      have hgl : pyPrev l n.val = l.get ⟨n.val - 1, hlt⟩ := by
        unfold pyPrev
        rw [if_neg hz, List.getD_eq_getElem l "" hlt]
        exact (List.get_eq_getElem l ⟨n.val - 1, hlt⟩).symm
      rw [hgl]
      apply hmem_arch _ (l.get_mem _ _)
      intro he
      have := get_eq_of_count_one l e0 hcount (n.val - 1) n.val hlt n.isLt he hgetn
      omega
  have hin0 : e0 ∈ filterLinks arch l := by
    have hinc : includeAt arch l (0 + n.val) (l.get ⟨n.val, n.isLt⟩) = true := by
      rw [Nat.zero_add, hgetn]
      unfold includeAt
      simp [h0a, h0l, hprevarch]
    have hx := mem_filterAux arch l l 0 n.val n.isLt hinc
    rw [hgetn] at hx
    exact hx
  have hin1 : e1 ∈ filterLinks arch l :=
    mem_filterLinks_arch arch e1 l (hperm.mem_iff.mpr (by simp)) h1arch h1b h1l
  have hin2 : e2 ∈ filterLinks arch l :=
    mem_filterLinks_arch arch e2 l (hperm.mem_iff.mpr (by simp)) h2arch h2b h2l
  have hin3 : e3 ∈ filterLinks arch l :=
    mem_filterLinks_arch arch e3 l (hperm.mem_iff.mpr (by simp)) h3arch h3b h3l
  have hc0 : classOf e0 = some 0 := by unfold classOf; simp [h0h, h0a]
  have hc1 : classOf e1 = some 1 := by unfold classOf; simp [h1h, h1g, h1all]
  have hc2 : classOf e2 = some 2 := by unfold classOf; simp [h2m, h2g, h2h]
  have hc3 : classOf e3 = some 3 := by unfold classOf; simp [h3i, h3g, h3h, h3m]
  have hs0 := debSort_fill (filterLinks arch l) e0 0 hin0 hc0
  have hs1 := debSort_fill (filterLinks arch l) e1 1 hin1 hc1
  have hs2 := debSort_fill (filterLinks arch l) e2 2 hin2 hc2
  have hs3 := debSort_fill (filterLinks arch l) e3 3 hin3 hc3
  unfold isComplete
  simp only [Bool.and_eq_true]
  exact ⟨⟨⟨hs0, hs1⟩, hs2⟩, hs3⟩

/-- C4 witness: a shuffled version of the example listing (image first,
junk interleaved, modules last) still resolves to a complete plan. -/
theorem shuffled_listing_complete_witness :
    [debImage, debBuildLog, debHeadersAll, debHeadersArch, debLowLat,
      debModules].Perm
      (debHeadersAll :: debHeadersArch :: debModules :: debImage ::
        [debBuildLog, debLowLat]) ∧
    isComplete (debSort (filterLinks "amd64"
      [debImage, debBuildLog, debHeadersAll, debHeadersArch, debLowLat,
        debModules])) = true :=
  ⟨by decide,
   shuffled_listing_complete "amd64" debHeadersAll debHeadersArch debModules
     debImage [debBuildLog, debLowLat]
     [debImage, debBuildLog, debHeadersAll, debHeadersArch, debLowLat, debModules]
     (by decide)
     (by decide) (by decide) (by decide) (by decide)
     (by decide) (by decide) (by decide) (by decide) (by decide) (by decide)
     (by decide) (by decide) (by decide) (by decide) (by decide) (by decide)
     (by decide) (by decide) (by decide) (by decide) (by decide) (by decide)
     (by decide)
     (by decide)⟩

/-! ## Claim C10: duplicate filenames record at the first index -/

/-- C10: `_rc_check` records a success at the FIRST occurrence of the
filename in the package tuple (`.index`), so when two plan slots hold an
identical filename (and no other slot shares it), the later slot's outcome
stays at its initial failure value and the earlier slot's outcome is
success iff either of the two installs exited zero. -/
theorem duplicate_name_records_at_first (a b c d : String) (r0 r1 r2 r3 : Int)
    (i j : Fin 4) (hij : i < j)
    (heq : nth4 (a, b, c, d) i = nth4 (a, b, c, d) j)
    (hothers : ∀ k : Fin 4, k ≠ i → k ≠ j →
      nth4 (a, b, c, d) k ≠ nth4 (a, b, c, d) i) :
    nth4 (installAllDebs (a, b, c, d) r0 r1 r2 r3).2 j = false ∧
    nth4 (installAllDebs (a, b, c, d) r0 r1 r2 r3).2 i =
      (decide (nth4 (r0, r1, r2, r3) i = 0) ||
       decide (nth4 (r0, r1, r2, r3) j = 0)) := by
  fin_cases i <;> fin_cases j
  · exact absurd hij (by decide)
  · -- slots 0 and 1 share the name
    have hab : a = b := by simpa [nth4] using heq
    have hca : ¬c = a := by
      have := hothers 2 (by decide) (by decide)
      simpa [nth4] using this
    have hda : ¬d = a := by
      have := hothers 3 (by decide) (by decide)
      simpa [nth4] using this
    clear heq hothers hij
    subst hab
    simp only [installAllDebs, installStep, rcCheck, pyIndex, nth4]
    split_ifs <;> simp_all [set4, nth4]
  · -- slots 0 and 2 share the name
    have hac : a = c := by simpa [nth4] using heq
    have hba : ¬b = a := by
      have := hothers 1 (by decide) (by decide)
      simpa [nth4] using this
    have hda : ¬d = a := by
      have := hothers 3 (by decide) (by decide)
      simpa [nth4] using this
    clear heq hothers hij
    subst hac
    simp only [installAllDebs, installStep, rcCheck, pyIndex, nth4]
    split_ifs <;> simp_all [set4, nth4]
  · -- slots 0 and 3 share the name
    have had : a = d := by simpa [nth4] using heq
    have hba : ¬b = a := by
      have := hothers 1 (by decide) (by decide)
      simpa [nth4] using this
    have hca : ¬c = a := by
      have := hothers 2 (by decide) (by decide)
      simpa [nth4] using this
    clear heq hothers hij
    subst had
    simp only [installAllDebs, installStep, rcCheck, pyIndex, nth4]
    split_ifs <;> simp_all [set4, nth4]
  · exact absurd hij (by decide)
  · exact absurd hij (by decide)
  · -- slots 1 and 2 share the name
    have hbc : b = c := by simpa [nth4] using heq
    have hab : ¬a = b := by
      have := hothers 0 (by decide) (by decide)
      simpa [nth4] using this
    have hdb : ¬d = b := by
      have := hothers 3 (by decide) (by decide)
      simpa [nth4] using this
    clear heq hothers hij
    subst hbc
    simp only [installAllDebs, installStep, rcCheck, pyIndex, nth4]
    split_ifs <;> simp_all [set4, nth4]
  · -- slots 1 and 3 share the name
    have hbd : b = d := by simpa [nth4] using heq
    have hab : ¬a = b := by
      have := hothers 0 (by decide) (by decide)
      simpa [nth4] using this
    have hcb : ¬c = b := by
      have := hothers 2 (by decide) (by decide)
      simpa [nth4] using this
    clear heq hothers hij
    subst hbd
    simp only [installAllDebs, installStep, rcCheck, pyIndex, nth4]
    split_ifs <;> simp_all [set4, nth4]
  · exact absurd hij (by decide)
  · exact absurd hij (by decide)
  · exact absurd hij (by decide)
  · -- slots 2 and 3 share the name
    have hcd : c = d := by simpa [nth4] using heq
    have hac : ¬a = c := by
      have := hothers 0 (by decide) (by decide)
      simpa [nth4] using this
    have hbc : ¬b = c := by
      have := hothers 1 (by decide) (by decide)
      simpa [nth4] using this
    clear heq hothers hij
    subst hcd
    simp only [installAllDebs, installStep, rcCheck, pyIndex, nth4]
    split_ifs <;> simp_all [set4, nth4]
  · exact absurd hij (by decide)
  · exact absurd hij (by decide)
  · exact absurd hij (by decide)
  · exact absurd hij (by decide)

/-- C10 witness: slots 1 and 2 hold the same filename; with exit codes
`0, 1, 0, 0` the success of the slot-2 install is recorded at slot 1,
whose outcome becomes true, while slot 2's outcome stays false. -/
theorem duplicate_name_records_at_first_witness :
    nth4 (installAllDebs (debHeadersAll, debModules, debModules, debImage)
      0 1 0 0).2 2 = false ∧
    nth4 (installAllDebs (debHeadersAll, debModules, debModules, debImage)
      0 1 0 0).2 1 = true := by
  have h := duplicate_name_records_at_first debHeadersAll debModules debModules
    debImage 0 1 0 0 1 2 (by decide) (by decide) (by decide)
  exact ⟨h.1, h.2.trans (by decide)⟩

/-! ## Claim C8: fetch deletes stale copies and writes-then-closes -/

/-- C8: for every fetch of a named artifact — if a file of that name
already exists it is deleted before the download (the delete event strictly
precedes the GET in the trace); on a successful download the full retrieved
byte sequence ends up under the same name (overwriting whatever was there)
with the handle opened, written and closed before returning; on a download
failure no handle is ever opened; and on every exit path each opened handle
is closed. -/
theorem fetch_overwrites_and_closes (fs : FS) (n : String)
    (net : Except FetchErr Bytes) :
    (∀ bs, net = .ok bs →
      fsGet (getDeb fs n net).1 n = some bs ∧
      (getDeb fs n net).2.1 =
        (if fsHas fs n then [FetchEv.evExists n true, FetchEv.evDelete n]
         else [FetchEv.evExists n false]) ++
        [FetchEv.evGet n, FetchEv.evOpen n, FetchEv.evWrite n,
         FetchEv.evClose n]) ∧
    (∀ e, net = .error e →
      (getDeb fs n net).2.1 =
        (if fsHas fs n then [FetchEv.evExists n true, FetchEv.evDelete n]
         else [FetchEv.evExists n false]) ++ [FetchEv.evGet n] ∧
      openCount (getDeb fs n net).2.1 = 0) ∧
    openCount (getDeb fs n net).2.1 = closeCount (getDeb fs n net).2.1 := by
  have hset : ∀ (fs2 : FS) (v : Bytes), fsGet (fsSet fs2 n v) n = some v := by
    intro fs2 v
    simp [fsSet, fsGet]
  cases net with
  | ok bs =>
    refine ⟨?_, ?_, ?_⟩
    · intro bs2 hbs2
      cases hbs2
      constructor
      · by_cases hf : fsHas fs n <;>
          simp [getDeb, getPkgData, writePkgData, hf, hset]
      · by_cases hf : fsHas fs n <;>
          simp [getDeb, getPkgData, writePkgData, hf]
    · intro e he
      simp at he
    · by_cases hf : fsHas fs n <;>
        simp [getDeb, getPkgData, writePkgData, hf, openCount, closeCount,
          List.countP_cons, List.countP_nil]
  | error e =>
    refine ⟨?_, ?_, ?_⟩
    · intro bs2 hbs2
      simp at hbs2
    · intro e2 he2
      cases he2
      constructor
      · by_cases hf : fsHas fs n <;>
          simp [getDeb, getPkgData, hf]
      · by_cases hf : fsHas fs n <;>
          simp [getDeb, getPkgData, hf, openCount, List.countP_cons,
            List.countP_nil]
    · by_cases hf : fsHas fs n <;>
        simp [getDeb, getPkgData, hf, openCount, closeCount, List.countP_cons,
          List.countP_nil]

/-- C8 witness: fetching "a.deb" over an existing stale copy replaces its
content, with the delete before the GET and the handle closed. -/
theorem fetch_overwrites_and_closes_witness :
    fsGet (getDeb [("a.deb", [1, 2])] "a.deb" (.ok [7])).1 "a.deb" = some [7] ∧
    (getDeb [("a.deb", [1, 2])] "a.deb" (.ok [7])).2.1 =
      [FetchEv.evExists "a.deb" true, FetchEv.evDelete "a.deb",
       FetchEv.evGet "a.deb", FetchEv.evOpen "a.deb",
       FetchEv.evWrite "a.deb", FetchEv.evClose "a.deb"] := by
  have h := (fetch_overwrites_and_closes [("a.deb", [1, 2])] "a.deb"
    (.ok [7])).1 [7] rfl
  exact ⟨h.1, h.2.trans (by decide)⟩
